import Mathlib

/-!
# ebrick-demo: address map and hello-world program

A verification development for two files of the repository:

* `config/ebrick_memory_map.h`: the address map, a list of object-like
  preprocessor definitions whose replacement lists are C constant
  expressions;
* `testbench/program/hello.c`: a program that writes a string, byte by
  byte, to the memory-mapped UART port.

The header is embedded at the level of preprocessing tokens: every
`#define` is transcribed as its replacement list, identifiers are replaced
textually (so that the missing parentheses of `MAIN_MEMORY_SIZE` are
visible), the resulting token sequence is parsed with the operator
precedence of C. An expression is then evaluated in two ways: with the
integer types C gives its constants, which is what a C translation unit
including the header gets (`Expr.evalC`), and with every operand widened to
64 bits, which is the reading of the header's documentation
(`Expr.eval64`). The two differ on every address definition: their shifts
by 56 and by 40 have a 32-bit `int` as left operand.
-/

namespace EbrickDemo

/-! ## The header `ebrick_memory_map.h` -/

/-- The identifiers defined by the header, in the order of their `#define`s. -/
inductive Sym
  | MAIN_MEMORY_SIZE
  | MEM_CHIPID
  | MEM_ADDR_LOW
  | MEM_ADDR_HIGH
  | CORE_CHIPID
  | CORE_ADDR_LOW
  | CORE_ADDR_HIGH
  | HOST_CHIPID
  | HOST_ADDR_LOW
  | HOST_ADDR_HIGH
  | MONITOR_CHIPID
  | MONITOR_ADDR_LOW
  | MONITOR_ADDR_HIGH
  | UART_ADDR
  | EXIT_ADDR
  deriving DecidableEq, Repr

/-- How an integer constant is spelled: `0x...` or decimal. -/
inductive Base
  | hex
  | dec
  deriving DecidableEq, Repr

/-- Preprocessing tokens occurring in the header's replacement lists. -/
inductive Tok
  | lit (b : Base) (n : Nat)
  | ident (s : Sym)
  | lparen
  | rparen
  | shl
  | plus
  | minus
  | bor
  deriving DecidableEq, Repr

/-- The replacement list of each `#define`, token for token. -/
def Sym.body : Sym → List Tok
  -- #define MAIN_MEMORY_SIZE  0x0000000000 | (1 << 15)
  | .MAIN_MEMORY_SIZE =>
      [.lit .hex 0x0000000000, .bor, .lparen, .lit .dec 1, .shl, .lit .dec 15, .rparen]
  -- #define MEM_CHIPID        0x0000
  | .MEM_CHIPID => [.lit .hex 0x0000]
  -- #define MEM_ADDR_LOW      ((0x00 << 56) + (MEM_CHIPID << 40) + 0x0000000000)
  | .MEM_ADDR_LOW =>
      [.lparen, .lparen, .lit .hex 0x00, .shl, .lit .dec 56, .rparen, .plus,
       .lparen, .ident .MEM_CHIPID, .shl, .lit .dec 40, .rparen, .plus,
       .lit .hex 0x0000000000, .rparen]
  -- #define MEM_ADDR_HIGH     ((0x00 << 56) + (MEM_CHIPID << 40) + (MAIN_MEMORY_SIZE-1))
  | .MEM_ADDR_HIGH =>
      [.lparen, .lparen, .lit .hex 0x00, .shl, .lit .dec 56, .rparen, .plus,
       .lparen, .ident .MEM_CHIPID, .shl, .lit .dec 40, .rparen, .plus,
       .lparen, .ident .MAIN_MEMORY_SIZE, .minus, .lit .dec 1, .rparen, .rparen]
  -- #define CORE_CHIPID       0x4444
  | .CORE_CHIPID => [.lit .hex 0x4444]
  -- #define CORE_ADDR_LOW     ((0x00 << 56) + (CORE_CHIPID << 40) + 0x0000000000)
  | .CORE_ADDR_LOW =>
      [.lparen, .lparen, .lit .hex 0x00, .shl, .lit .dec 56, .rparen, .plus,
       .lparen, .ident .CORE_CHIPID, .shl, .lit .dec 40, .rparen, .plus,
       .lit .hex 0x0000000000, .rparen]
  -- #define CORE_ADDR_HIGH    ((0x00 << 56) + (CORE_CHIPID << 40) + 0xFFFFFFFFFF)
  | .CORE_ADDR_HIGH =>
      [.lparen, .lparen, .lit .hex 0x00, .shl, .lit .dec 56, .rparen, .plus,
       .lparen, .ident .CORE_CHIPID, .shl, .lit .dec 40, .rparen, .plus,
       .lit .hex 0xFFFFFFFFFF, .rparen]
  -- #define HOST_CHIPID       0x8888
  | .HOST_CHIPID => [.lit .hex 0x8888]
  -- #define HOST_ADDR_LOW     ((0x00 << 56) + (HOST_CHIPID << 40) + 0x0000000000)
  | .HOST_ADDR_LOW =>
      [.lparen, .lparen, .lit .hex 0x00, .shl, .lit .dec 56, .rparen, .plus,
       .lparen, .ident .HOST_CHIPID, .shl, .lit .dec 40, .rparen, .plus,
       .lit .hex 0x0000000000, .rparen]
  -- #define HOST_ADDR_HIGH    ((0x00 << 56) + (HOST_CHIPID << 40) + 0xFFFFFFFFFF)
  | .HOST_ADDR_HIGH =>
      [.lparen, .lparen, .lit .hex 0x00, .shl, .lit .dec 56, .rparen, .plus,
       .lparen, .ident .HOST_CHIPID, .shl, .lit .dec 40, .rparen, .plus,
       .lit .hex 0xFFFFFFFFFF, .rparen]
  -- #define MONITOR_CHIPID    0xCCCC
  | .MONITOR_CHIPID => [.lit .hex 0xCCCC]
  -- #define MONITOR_ADDR_LOW  ((0x00 << 56) + (MONITOR_CHIPID << 40) + 0x0000000000)
  | .MONITOR_ADDR_LOW =>
      [.lparen, .lparen, .lit .hex 0x00, .shl, .lit .dec 56, .rparen, .plus,
       .lparen, .ident .MONITOR_CHIPID, .shl, .lit .dec 40, .rparen, .plus,
       .lit .hex 0x0000000000, .rparen]
  -- #define MONITOR_ADDR_HIGH ((0x00 << 56) + (MONITOR_CHIPID << 40) + 0xFFFFFFFFFF)
  | .MONITOR_ADDR_HIGH =>
      [.lparen, .lparen, .lit .hex 0x00, .shl, .lit .dec 56, .rparen, .plus,
       .lparen, .ident .MONITOR_CHIPID, .shl, .lit .dec 40, .rparen, .plus,
       .lit .hex 0xFFFFFFFFFF, .rparen]
  -- #define UART_ADDR         0xC0000000
  | .UART_ADDR => [.lit .hex 0xC0000000]
  -- #define EXIT_ADDR         0xD0000000
  | .EXIT_ADDR => [.lit .hex 0xD0000000]

/-! ## Preprocessing: textual replacement of identifiers -/

/-- Replace one token: an identifier by its replacement list, itself
rescanned; `depth` bounds the nesting of replacements, and an identifier
met at depth zero is left in place (the parser then rejects it). -/
def expandTok : Nat → Tok → List Tok
  | d + 1, .ident s => (s.body).flatMap (fun t => expandTok d t)
  | _, t => [t]

/-- Nesting depth allowed for replacements; the header nests two deep
(`MEM_ADDR_HIGH` uses `MAIN_MEMORY_SIZE` and `MEM_CHIPID`). -/
def expandDepth : Nat := 8

/-- Expand every identifier of a token sequence. -/
def expand (ts : List Tok) : List Tok :=
  ts.flatMap (expandTok expandDepth)

/-! ## Parsing with the operator precedence of C -/

/-- The binary operators of the header. -/
inductive BinOp
  | add
  | sub
  | shl
  | bor
  deriving DecidableEq, Repr

/-- Constant expressions; parentheses are kept as a node. -/
inductive Expr
  | lit (b : Base) (n : Nat)
  | paren (e : Expr)
  | bin (op : BinOp) (l r : Expr)
  deriving DecidableEq, Repr

/-- The operator a token denotes, if any. -/
def Tok.binOp? : Tok → Option BinOp
  | .plus => some .add
  | .minus => some .sub
  | .shl => some .shl
  | .bor => some .bor
  | _ => none

/-- Binding strength, higher binds tighter: additive operators bind
tighter than shifts, which bind tighter than bitwise inclusive OR
(C11 6.5.6, 6.5.7, 6.5.12). All are left-associative. -/
def BinOp.prec : BinOp → Nat
  | .add => 3
  | .sub => 3
  | .shl => 2
  | .bor => 1

mutual
/-- A primary expression: a constant or a parenthesised expression. -/
def parsePrimary : Nat → List Tok → Option (Expr × List Tok)
  | 0, _ => none
  | _ + 1, .lit b n :: rest => some (.lit b n, rest)
  | f + 1, .lparen :: rest =>
      match parseExpr f 1 rest with
      | some (e, .rparen :: rest2) => some (.paren e, rest2)
      | _ => none
  | _ + 1, _ => none
/-- An expression all of whose top-level operators bind at least as
tightly as `minPrec`. -/
def parseExpr : Nat → Nat → List Tok → Option (Expr × List Tok)
  | 0, _, _ => none
  | f + 1, minPrec, ts =>
      match parsePrimary f ts with
      | some (lhs, rest) => parseRest f minPrec lhs rest
      | none => none
/-- Continue after a left operand: absorb operators binding at least as
tightly as `minPrec`, associating to the left. -/
def parseRest : Nat → Nat → Expr → List Tok → Option (Expr × List Tok)
  | 0, _, _, _ => none
  | _ + 1, _, lhs, [] => some (lhs, [])
  | f + 1, minPrec, lhs, t :: rest =>
      match t.binOp? with
      | some op =>
          if minPrec ≤ op.prec then
            match parseExpr f (op.prec + 1) rest with
            | some (rhs, rest2) => parseRest f minPrec (.bin op lhs rhs) rest2
            | none => none
          else some (lhs, t :: rest)
      | none => some (lhs, t :: rest)
end

/-- Parse a whole token sequence as one expression. -/
def parse (ts : List Tok) : Option Expr :=
  match parseExpr (4 * ts.length + 4) 1 ts with
  | some (e, []) => some e
  | _ => none

/-! ## Evaluation over 64-bit values -/

/-- Apply an operator to two 64-bit values; the result is reduced modulo
`2 ^ 64`, and a shift by 64 or more has no value. This widens every operand
to 64 bits, whatever its C type: it is the reading of the header's
documentation, and it is not what C computes for an operand of type `int`
or `unsigned int` (for that see `BinOp.applyC`). -/
def BinOp.apply64 : BinOp → Nat → Nat → Option Nat
  | .add, a, b => some ((a + b) % 2 ^ 64)
  | .sub, a, b => some ((a + 2 ^ 64 - b % 2 ^ 64) % 2 ^ 64)
  | .shl, a, b => if b < 64 then some ((a <<< b) % 2 ^ 64) else none
  | .bor, a, b => some ((a ||| b) % 2 ^ 64)

/-- The value of a constant expression, every operand taken as a 64-bit
value, the C type of its constants ignored. It agrees with C on the
definitions without a shift of an `int` by 32 or more; on the address
definitions it gives the documented address where C leaves the expression
undefined (see `Expr.evalC`). -/
def Expr.eval64 : Expr → Option Nat
  | .lit _ n => some (n % 2 ^ 64)
  | .paren e => e.eval64
  | .bin op l r =>
      match l.eval64, r.eval64 with
      | some a, some b => op.apply64 a b
      | _, _ => none

/-- The 64-bit value of a token sequence written in terms of the header's
identifiers: expand, parse, evaluate. -/
def constValue (ts : List Tok) : Option Nat :=
  match parse (expand ts) with
  | some e => e.eval64
  | none => none

/-- The 64-bit value of one of the header's identifiers. -/
def Sym.value (s : Sym) : Option Nat :=
  constValue [.ident s]

/-! ## The program `hello.c` -/

/-- A byte of memory, the object representation of a `char`. -/
abbrev Byte := Fin 256

/-- One store through the `volatile int*`: the address and the `int` value
stored. -/
structure Store where
  addr : Nat
  value : Int
  deriving DecidableEq, Repr

/-- Conversion of a `char` holding byte `b` to `int`; whether plain `char`
is signed is left to the implementation, hence the flag. -/
def charToInt (signedChar : Bool) (b : Byte) : Int :=
  if signedChar && decide (128 ≤ b.val) then (b.val : Int) - 256 else (b.val : Int)

/-- The loop `while ((c = *s++)) { *((volatile int*)UART_ADDR) = c; }`.
The list holds the bytes of the array `s` points into, from `s` to the end
of the array; reading `*s` takes its head and `s++` moves to its tail.
Reading past the end of the array has no defined result. -/
def putsLoop (signedChar : Bool) (uart : Nat) : List Byte → Option (List Store)
  | [] => none
  | c :: s =>
      if c ≠ 0 then
        match putsLoop signedChar uart s with
        | some t => some (⟨uart, charToInt signedChar c⟩ :: t)
        | none => none
      else some []

/-- The function `puts` of `hello.c`: the loop, then
`*((volatile int*)UART_ADDR) = '\n';`. The result is the sequence of
volatile stores performed, in order. -/
def puts (signedChar : Bool) (str : List Byte) : Option (List Store) :=
  match Sym.value .UART_ADDR with
  | some uart =>
      match putsLoop signedChar uart str with
      | some t => some (t ++ [⟨uart, ('\n'.toNat : Int)⟩])
      | none => none
  | none => none

/-- The array a string literal denotes: its characters followed by a
terminating zero byte. -/
def cString (s : String) : List Byte :=
  s.toList.map (fun ch => Fin.ofNat ch.toNat) ++ [0]

/-- The function `main` of `hello.c`: `puts("Hello World!"); return 0;`.
The result is the sequence of volatile stores and the return value. -/
def main (signedChar : Bool) : Option (List Store × Int) :=
  match puts signedChar (cString "Hello World!") with
  | some t => some (t, 0)
  | none => none

/-- Length of a C string: the number of bytes before the first zero byte. -/
def strlen (str : List Byte) : Nat :=
  (str.takeWhile (fun b => b ≠ 0)).length

/-! ## Vocabulary of the specification -/

/-- The four components the header's documentation lists. -/
inductive Participant
  | memory
  | core
  | host
  | monitor
  deriving DecidableEq, Repr

/-- The `X_CHIPID` identifier of a participant. -/
def Participant.chipId : Participant → Sym
  | .memory => .MEM_CHIPID
  | .core => .CORE_CHIPID
  | .host => .HOST_CHIPID
  | .monitor => .MONITOR_CHIPID

/-- The `X_ADDR_LOW` identifier of a participant. -/
def Participant.addrLow : Participant → Sym
  | .memory => .MEM_ADDR_LOW
  | .core => .CORE_ADDR_LOW
  | .host => .HOST_ADDR_LOW
  | .monitor => .MONITOR_ADDR_LOW

/-- The `X_ADDR_HIGH` identifier of a participant. -/
def Participant.addrHigh : Participant → Sym
  | .memory => .MEM_ADDR_HIGH
  | .core => .CORE_ADDR_HIGH
  | .host => .HOST_ADDR_HIGH
  | .monitor => .MONITOR_ADDR_HIGH

/-- The chip ID the header's documentation comment assigns to a
participant: main memory `0x0000`, ebrick core `0x4444`, UMITxRx host
`0x8888`, UMITxRx device `0xCCCC`. -/
def Participant.documentedId : Participant → Nat
  | .memory => 0x0000
  | .core => 0x4444
  | .host => 0x8888
  | .monitor => 0xCCCC

/-- Bits 56 to 63 of an address, the reserved field of the address format. -/
def reservedField (a : Nat) : Nat := (a >>> 56) % 2 ^ 8

/-- Bits 40 to 55 of an address, the chip ID field of the address format. -/
def chipIdField (a : Nat) : Nat := (a >>> 40) % 2 ^ 16

/-- The shape shared by the eight address definitions of the header,
`((0x00 << 56) + (c << 40) + o)`, for a chip ID `c` and an offset `o` given
as token sequences. -/
def addrPattern (c o : List Tok) : List Tok :=
  [.lparen, .lparen, .lit .hex 0x00, .shl, .lit .dec 56, .rparen, .plus, .lparen] ++ c ++
    [.shl, .lit .dec 40, .rparen, .plus] ++ o ++ [.rparen]

/-- Address composition as the specification words it:
`(chipID << 40) | offset`. -/
def specCompose (chipID offset : Nat) : Nat :=
  (chipID <<< 40) ||| offset

/-! ## Evaluation with the integer types of C -/

/-- The data models the header can be compiled under: `int` has 32 bits
and `long long` 64 in both, `long` has 32 bits under ILP32 (the RV32 target
of the demo program) and 64 under LP64. -/
inductive DataModel
  | ilp32
  | lp64
  deriving DecidableEq, Repr

/-- The types an integer constant without suffix can have (C11 6.4.4.1). -/
inductive CType
  | int
  | uint
  | long
  | ulong
  | llong
  | ullong
  deriving DecidableEq, Repr

/-- Width in bits of a type. -/
def CType.bits (dm : DataModel) : CType → Nat
  | .int => 32
  | .uint => 32
  | .long => match dm with
      | .ilp32 => 32
      | .lp64 => 64
  | .ulong => match dm with
      | .ilp32 => 32
      | .lp64 => 64
  | .llong => 64
  | .ullong => 64

/-- Whether a type is signed. -/
def CType.isSigned : CType → Bool
  | .int => true
  | .long => true
  | .llong => true
  | _ => false

/-- Integer conversion rank (C11 6.3.1.1). -/
def CType.rank : CType → Nat
  | .int => 1
  | .uint => 1
  | .long => 2
  | .ulong => 2
  | .llong => 3
  | .ullong => 3

/-- The unsigned type of the same rank. -/
def CType.toUnsigned : CType → CType
  | .int => .uint
  | .long => .ulong
  | .llong => .ullong
  | t => t

/-- Whether a type can represent a value. -/
def CType.represents (dm : DataModel) (t : CType) (v : Int) : Bool :=
  if t.isSigned then
    decide (-((2 ^ (t.bits dm - 1) : Nat) : Int) ≤ v) &&
      decide (v < ((2 ^ (t.bits dm - 1) : Nat) : Int))
  else decide (0 ≤ v) && decide (v < ((2 ^ t.bits dm : Nat) : Int))

/-- Reduction of a value into the range of a type, modulo two to the
width. -/
def CType.wrap (dm : DataModel) (t : CType) (v : Int) : Int :=
  if t.isSigned && decide (((2 ^ (t.bits dm - 1) : Nat) : Int) ≤ v % ((2 ^ t.bits dm : Nat) : Int))
  then v % ((2 ^ t.bits dm : Nat) : Int) - ((2 ^ t.bits dm : Nat) : Int)
  else v % ((2 ^ t.bits dm : Nat) : Int)

/-- The type of an integer constant without suffix: the first type of the
list for its spelling that can represent its value (C11 6.4.4.1p5). -/
def litType (dm : DataModel) : Base → Nat → Option CType
  | .dec, n => [CType.int, .long, .llong].find? (fun t => t.represents dm n)
  | .hex, n =>
      [CType.int, .uint, .long, .ulong, .llong, .ullong].find? (fun t => t.represents dm n)

/-- The common type of two operands under the usual arithmetic conversions
(C11 6.3.1.8); every type here has at least the rank of `int`, so the
integer promotions change nothing. -/
def CType.common (dm : DataModel) (a b : CType) : CType :=
  if a = b then a
  else if a.isSigned = b.isSigned then (if a.rank ≤ b.rank then b else a)
  else
    let u := if a.isSigned then b else a
    let s := if a.isSigned then a else b
    if s.rank ≤ u.rank then u
    else if u.bits dm < s.bits dm then s
    else s.toUnsigned

/-- The result of an arithmetic operation in type `t` whose mathematical
value is `r`: unsigned arithmetic wraps, signed overflow is undefined. -/
def CType.result (dm : DataModel) (t : CType) (r : Int) : Option (CType × Int) :=
  if t.isSigned then (if t.represents dm r then some (t, r) else none)
  else some (t, t.wrap dm r)

/-- Apply an operator to two typed values. A shift has the type of its
left operand and is undefined when the count is negative or not smaller
than the width of that type, or when the left operand is signed and
negative or the shifted value not representable (C11 6.5.7p3-4). -/
def BinOp.applyC (dm : DataModel) : BinOp → CType × Int → CType × Int → Option (CType × Int)
  | .add, (ta, a), (tb, b) =>
      (ta.common dm tb).result dm ((ta.common dm tb).wrap dm a + (ta.common dm tb).wrap dm b)
  | .sub, (ta, a), (tb, b) =>
      (ta.common dm tb).result dm ((ta.common dm tb).wrap dm a - (ta.common dm tb).wrap dm b)
  | .bor, (ta, a), (tb, b) =>
      some (ta.common dm tb, (ta.common dm tb).wrap dm
        (((a % ((2 ^ (ta.common dm tb).bits dm : Nat) : Int)).toNat |||
          (b % ((2 ^ (ta.common dm tb).bits dm : Nat) : Int)).toNat : Nat) : Int))
  | .shl, (ta, a), (_, c) =>
      if c < 0 ∨ (ta.bits dm : Int) ≤ c then none
      else if ta.isSigned then
        (if a < 0 then none
         else if ta.represents dm (a * ((2 ^ c.toNat : Nat) : Int)) then
           some (ta, a * ((2 ^ c.toNat : Nat) : Int))
         else none)
      else some (ta, ta.wrap dm (a * ((2 ^ c.toNat : Nat) : Int)))

/-- The type and value of a constant expression under the typing of C;
`none` when the evaluation is undefined. -/
def Expr.evalC (dm : DataModel) : Expr → Option (CType × Int)
  | .lit b n =>
      match litType dm b n with
      | some t => some (t, (n : Int))
      | none => none
  | .paren e => e.evalC dm
  | .bin op l r =>
      match l.evalC dm, r.evalC dm with
      | some a, some b => op.applyC dm a b
      | _, _ => none

/-- The typed value of a token sequence written in terms of the header's
identifiers: expand, parse, evaluate under the typing of C. -/
def constValueC (dm : DataModel) (ts : List Tok) : Option (CType × Int) :=
  match parse (expand ts) with
  | some e => e.evalC dm
  | none => none

/-- The type of a constant expression, which C fixes whether or not the
evaluation is defined: a shift has the type of its left operand, the other
operators the common type of their operands (C11 6.5.6p4, 6.5.7p3,
6.5.12p3). -/
def Expr.typeC (dm : DataModel) : Expr → Option CType
  | .lit b n => litType dm b n
  | .paren e => e.typeC dm
  | .bin op l r =>
      match l.typeC dm, r.typeC dm with
      | some a, some b =>
          match op with
          | .shl => some a
          | _ => some (a.common dm b)
      | _, _ => none

/-- The type of a token sequence written in terms of the header's
identifiers: expand, parse, type. -/
def constTypeC (dm : DataModel) (ts : List Tok) : Option CType :=
  match parse (expand ts) with
  | some e => e.typeC dm
  | none => none

/-- The 64-bit pattern of a value converted to a 64-bit address: the value
modulo `2 ^ 64`, which sign-extends a negative value. -/
def bits64 (v : Int) : Nat :=
  (v % ((2 ^ 64 : Nat) : Int)).toNat

/-- The 32-bit word a store of an `int` puts on the bus: the value modulo
`2 ^ 32`. -/
def Store.word (w : Store) : Nat :=
  (w.value % ((2 ^ 32 : Nat) : Int)).toNat

/-! ## Theorems: the address map -/

/-- Every address definition of the header is an instance of the shared
shape, with the participant's chip ID identifier in the chip ID position. -/
theorem body_eq_addrPattern (p : Participant) :
    p.addrLow.body = addrPattern [.ident p.chipId] [.lit .hex 0x0000000000] ∧
    p.addrHigh.body = addrPattern [.ident p.chipId]
      (match p with
        | .memory => [.lparen, .ident .MAIN_MEMORY_SIZE, .minus, .lit .dec 1, .rparen]
        | _ => [.lit .hex 0xFFFFFFFFFF]) := by
  cases p <;> exact ⟨rfl, rfl⟩

/-- C2: the code gives the main-memory region 32768 bytes:
`MEM_ADDR_HIGH - MEM_ADDR_LOW + 1` evaluates to 32768, not to
`32768 * 1024`, the "32768 kiB" of the header's comment. -/
theorem main_memory_span :
    constValue [.ident .MEM_ADDR_HIGH, .minus, .ident .MEM_ADDR_LOW, .plus, .lit .dec 1]
      = some 32768 ∧
    constValue [.ident .MEM_ADDR_HIGH, .minus, .ident .MEM_ADDR_LOW, .plus, .lit .dec 1]
      ≠ some (32768 * 1024) := by
  decide

/-- C8: the four chip IDs evaluate to `0x0000`, `0x4444`, `0x8888` and
`0xCCCC`, no two of them are equal, and each is below `2 ^ 16`. -/
theorem chip_ids :
    (Sym.value .MEM_CHIPID = some 0x0000 ∧ Sym.value .CORE_CHIPID = some 0x4444 ∧
      Sym.value .HOST_CHIPID = some 0x8888 ∧ Sym.value .MONITOR_CHIPID = some 0xCCCC) ∧
    ([Sym.MEM_CHIPID, Sym.CORE_CHIPID, Sym.HOST_CHIPID, Sym.MONITOR_CHIPID].map
      Sym.value).Nodup ∧
    (∀ p : Participant, ∃ v, p.chipId.value = some v ∧ v < 2 ^ 16) := by
  refine ⟨by decide, by decide, ?_⟩
  intro p
  exact ⟨p.documentedId, by cases p <;> decide, by cases p <;> decide⟩

/-- The UART port of the program is the header's `UART_ADDR`. -/
theorem uart_addr_value : Sym.value .UART_ADDR = some 0xC0000000 := by
  decide

/-- On a byte sequence containing a zero byte the loop stops at the first
one, having stored the bytes before it in order. -/
theorem putsLoop_of_mem_zero (signedChar : Bool) (uart : Nat) (str : List Byte)
    (h : (0 : Byte) ∈ str) :
    putsLoop signedChar uart str
      = some ((str.takeWhile (fun b => b ≠ 0)).map
          (fun b => ⟨uart, charToInt signedChar b⟩)) := by
  induction str with
  | nil => simp at h
  | cons c s ih =>
      by_cases hc : c = 0
      · simp [putsLoop, hc]
      · have hs : (0 : Byte) ∈ s := by
          rcases List.mem_cons.mp h with h0 | h0
          · exact absurd h0.symm hc
          · exact h0
        simp [putsLoop, hc, ih hs]

/-- The `int` a `char` converts to is congruent to its byte modulo 256 and
is zero only for the zero byte. -/
theorem charToInt_spec (signedChar : Bool) (b : Byte) :
    charToInt signedChar b % 256 = (b.val : Int) ∧
    (charToInt signedChar b = 0 ↔ b = 0) := by
  have hb := b.isLt
  have h0 : b = 0 ↔ b.val = 0 := Fin.ext_iff
  unfold charToInt
  rw [h0]
  split <;> rename_i hs
  · simp only [Bool.and_eq_true, decide_eq_true_eq] at hs
    omega
  · omega

/-- The bytes before the first zero byte are unchanged when what follows
that zero byte is replaced. -/
theorem takeWhile_ne_zero_append (str post : List Byte) :
    (str.takeWhile (fun b => b ≠ 0) ++ 0 :: post).takeWhile (fun b => b ≠ 0)
      = str.takeWhile (fun b => b ≠ 0) := by
  induction str with
  | nil => simp
  | cons c s ih =>
      by_cases hc : c = 0
      · simp [hc]
      · have hp : decide (c ≠ 0) = true := by simpa using hc
        have hcons : ∀ l : List Byte,
            (c :: l).takeWhile (fun b => b ≠ 0) = c :: l.takeWhile (fun b => b ≠ 0) :=
          fun l => List.takeWhile_cons_of_pos hp
        rw [hcons s, List.cons_append, hcons, ih]

/-- What `puts` stores on a byte sequence containing a zero byte. -/
theorem puts_of_mem_zero (signedChar : Bool) (str : List Byte) (h : (0 : Byte) ∈ str) :
    puts signedChar str
      = some ((str.takeWhile (fun b => b ≠ 0)).map
          (fun b => ⟨0xC0000000, charToInt signedChar b⟩) ++ [⟨0xC0000000, 0x0A⟩]) := by
  unfold puts
  rw [uart_addr_value]
  simp only [putsLoop_of_mem_zero signedChar _ str h]
  rfl

/-- C5: on every null-terminated byte sequence `puts` returns, and its
stores are: for each byte before the first zero byte, in order, one store
to `UART_ADDR` of that byte converted to `int` (a word whose low byte is the
byte), then one store of the newline, `0x0A`, to `UART_ADDR`. So there are
`strlen str + 1` stores, none of them stores zero, what follows the first
zero byte has no influence, and for the empty string the newline is the only
store. -/
theorem puts_trace (signedChar : Bool) (str : List Byte) (h : (0 : Byte) ∈ str) :
    ∃ trace, puts signedChar str = some trace ∧
      trace = (str.takeWhile (fun b => b ≠ 0)).map
          (fun b => ⟨0xC0000000, charToInt signedChar b⟩) ++ [⟨0xC0000000, 0x0A⟩] ∧
      (∀ w ∈ trace, some w.addr = Sym.value .UART_ADDR) ∧
      trace.map (fun w => w.value % 256)
        = (str.takeWhile (fun b => b ≠ 0)).map (fun b => (b.val : Int)) ++ [0x0A] ∧
      trace.length = strlen str + 1 ∧
      (∀ w ∈ trace, w.value ≠ 0) ∧
      (∀ post : List Byte,
        puts signedChar (str.takeWhile (fun b => b ≠ 0) ++ 0 :: post) = some trace) ∧
      (strlen str = 0 → trace = [⟨0xC0000000, 0x0A⟩]) := by
  refine ⟨_, puts_of_mem_zero signedChar str h, rfl, ?_, ?_, ?_, ?_, ?_, ?_⟩
  · intro w hw
    rw [uart_addr_value]
    simp only [List.mem_append, List.mem_map, List.mem_singleton] at hw
    rcases hw with ⟨b, _, rfl⟩ | rfl <;> rfl
  · simp only [List.map_append, List.map_map, List.map_cons, List.map_nil]
    congr 1
    apply List.map_congr_left
    intro b _
    exact (charToInt_spec signedChar b).1
  · simp [strlen]
  · intro w hw
    simp only [List.mem_append, List.mem_map, List.mem_singleton] at hw
    rcases hw with ⟨b, hb, rfl⟩ | rfl
    · have hb0 : b ≠ 0 := by
        have := List.mem_takeWhile_imp hb
        simpa using this
      exact fun h0 => hb0 ((charToInt_spec signedChar b).2.mp h0)
    · decide
  · intro post
    rw [puts_of_mem_zero signedChar _ (by simp), takeWhile_ne_zero_append]
  · intro h0
    have hnil : str.takeWhile (fun b => b ≠ 0) = [] := List.length_eq_zero.mp h0
    rw [hnil]
    rfl

/-- Witness for C5: the bytes `'H'`, `'i'`, zero, `'!'`: two stores for
`"Hi"` and one for the newline; the byte after the zero is not stored. -/
theorem puts_trace_witness :
    (0 : Byte) ∈ ([72, 105, 0, 33] : List Byte) ∧
    ∃ trace, puts false [72, 105, 0, 33] = some trace ∧
      trace = (([72, 105, 0, 33] : List Byte).takeWhile (fun b => b ≠ 0)).map
          (fun b => ⟨0xC0000000, charToInt false b⟩) ++ [⟨0xC0000000, 0x0A⟩] ∧
      (∀ w ∈ trace, some w.addr = Sym.value .UART_ADDR) ∧
      trace.map (fun w => w.value % 256)
        = (([72, 105, 0, 33] : List Byte).takeWhile (fun b => b ≠ 0)).map (fun b => (b.val : Int))
            ++ [0x0A] ∧
      trace.length = strlen ([72, 105, 0, 33] : List Byte) + 1 ∧
      (∀ w ∈ trace, w.value ≠ 0) ∧
      (∀ post : List Byte,
        puts false (([72, 105, 0, 33] : List Byte).takeWhile (fun b => b ≠ 0) ++ 0 :: post) = some trace) ∧
      (strlen ([72, 105, 0, 33] : List Byte) = 0 → trace = [⟨0xC0000000, 0x0A⟩]) :=
  ⟨by decide, puts_trace false [72, 105, 0, 33] (by decide)⟩

/-- C4: `main` returns 0 after exactly 13 stores, all to `UART_ADDR`, whose
values are in order the characters of `Hello World!` and a newline; this
holds whether plain `char` is signed or not. -/
theorem main_hello_world (signedChar : Bool) :
    Sym.value .UART_ADDR = some 0xC0000000 ∧
    main signedChar
      = some (['H', 'e', 'l', 'l', 'o', ' ', 'W', 'o', 'r', 'l', 'd', '!', '\n'].map
          (fun ch => ⟨0xC0000000, (ch.toNat : Int)⟩), 0) ∧
    (['H', 'e', 'l', 'l', 'o', ' ', 'W', 'o', 'r', 'l', 'd', '!', '\n'].map
      (fun ch => (⟨0xC0000000, (ch.toNat : Int)⟩ : Store))).length = 13 := by
  cases signedChar <;> decide

/-! ## Theorems: the typing of C -/

/-- The definitions of the header without a shift have a typed value: the
chip IDs and `MAIN_MEMORY_SIZE` are `int`, the port offsets `unsigned int`,
and `(MAIN_MEMORY_SIZE-1)` is the `int` 32767. -/
theorem constValueC_defined (dm : DataModel) :
    constValueC dm [.ident .MAIN_MEMORY_SIZE] = some (.int, 32768) ∧
    constValueC dm [.lparen, .ident .MAIN_MEMORY_SIZE, .minus, .lit .dec 1, .rparen]
      = some (.int, 32767) ∧
    constValueC dm [.ident .MONITOR_CHIPID] = some (.int, 0xCCCC) ∧
    constValueC dm [.ident .UART_ADDR] = some (.uint, 0xC0000000) ∧
    constValueC dm [.ident .EXIT_ADDR] = some (.uint, 0xD0000000) ∧
    constValueC dm [.ident .MONITOR_CHIPID, .shl, .lit .dec 15] = some (.int, 0x66660000) := by
  cases dm <;> decide

/-- C11: what the code does under the typing of C. In `X_ADDR_LOW` the two
shifts are `0x00 << 56` and `X_CHIPID << 40`; both left operands are
constants of type `int`, 32 bits wide, so both counts exceed the width of
the left operand and each shift is undefined. Hence `X_ADDR_LOW` and
`X_ADDR_HIGH` have no value under the typing of C for any participant,
under ILP32 and under LP64, although both have a 64-bit value. -/
theorem address_shift_undefined (dm : DataModel) (p : Participant) :
    (litType dm .hex 0x00 = some .int ∧ litType dm .hex p.documentedId = some .int ∧
      CType.bits dm .int = 32) ∧
    parse (expand [.ident p.addrLow])
      = some (.paren (.bin .add
          (.bin .add (.paren (.bin .shl (.lit .hex 0x00) (.lit .dec 56)))
            (.paren (.bin .shl (.lit .hex p.documentedId) (.lit .dec 40))))
          (.lit .hex 0x0000000000))) ∧
    (Expr.evalC dm (.bin .shl (.lit .hex 0x00) (.lit .dec 56)) = none ∧
      Expr.evalC dm (.bin .shl (.lit .hex p.documentedId) (.lit .dec 40)) = none) ∧
    (constValueC dm [.ident p.addrLow] = none ∧
      constValueC dm [.ident p.addrHigh] = none) ∧
    (p.addrLow.value.isSome = true ∧ p.addrHigh.value.isSome = true) := by
  cases dm <;> cases p <;> decide

/-- An operator applied to typed values gives a value of the type C fixes
for the expression. -/
theorem applyC_type (dm : DataModel) (op : BinOp) (a b r : CType × Int)
    (h : op.applyC dm a b = some r) :
    r.1 = (match op with
      | .shl => a.1
      | _ => a.1.common dm b.1) := by
  obtain ⟨ta, va⟩ := a
  obtain ⟨tb, vb⟩ := b
  cases op
  all_goals simp only [BinOp.applyC, CType.result] at h
  all_goals try split_ifs at h
  all_goals first
    | (cases h; done)
    | (cases h; rfl)

/-- Where the evaluation under the typing of C is defined, the value has
the type of the expression. -/
theorem evalC_typeC (dm : DataModel) (e : Expr) (r : CType × Int)
    (h : e.evalC dm = some r) : e.typeC dm = some r.1 := by
  induction e generalizing r with
  | lit b n =>
      simp only [Expr.evalC] at h
      split at h
      · rename_i t ht
        simp only [Option.some.injEq] at h
        subst h
        simpa [Expr.typeC] using ht
      · simp at h
  | paren e ih => exact ih r h
  | bin op l rr ihl ihr =>
      simp only [Expr.evalC] at h
      split at h
      · rename_i a b ha hb
        have hl := ihl a ha
        have hr := ihr b hb
        have ht := applyC_type dm op a b r h
        simp only [Expr.typeC, hl, hr]
        cases op <;> simp_all
      · simp at h

/-- Whatever `int` value an implementation gives an expression, converted
to a 64-bit address it has bits 40 to 55 all equal: the chip ID field is
`0x0000` or `0xFFFF`. -/
theorem chipIdField_of_int (dm : DataModel) (v : Int) :
    chipIdField (bits64 (CType.wrap dm .int v)) = 0x0000 ∨
    chipIdField (bits64 (CType.wrap dm .int v)) = 0xFFFF := by
  have hm := Int.emod_nonneg v (show ((2 ^ 32 : Nat) : Int) ≠ 0 by norm_num)
  have hm2 := Int.emod_lt_of_pos v (show (0 : Int) < ((2 ^ 32 : Nat) : Int) by norm_num)
  simp only [chipIdField, bits64, CType.wrap, CType.isSigned, CType.bits,
    Nat.shiftRight_eq_div_pow, Bool.true_and]
  norm_num at hm hm2 ⊢
  split <;> omega

/-- Whatever `unsigned int` value an expression has, converted to a 64-bit
address it is below `2 ^ 32`. -/
theorem bits64_of_uint (dm : DataModel) (v : Int) :
    bits64 (CType.wrap dm .uint v) < 2 ^ 32 := by
  have hm := Int.emod_nonneg v (show ((2 ^ 32 : Nat) : Int) ≠ 0 by norm_num)
  have hm2 := Int.emod_lt_of_pos v (show (0 : Int) < ((2 ^ 32 : Nat) : Int) by norm_num)
  simp only [bits64, CType.wrap, CType.isSigned, CType.bits, Bool.false_and]
  norm_num at hm hm2 ⊢
  omega

/-- C1: what the code does. Under the typing of C neither `X_ADDR_LOW` nor
`X_ADDR_HIGH` has a value, for any participant. `X_ADDR_LOW` is an
expression of type `int`, 32 bits wide, and whatever `int` value an
implementation gives it, as a 64-bit address its bits 40 to 55 are `0x0000`
or `0xFFFF`; the documented chip IDs of the core, the host and the monitor
are neither. -/
theorem address_fields_undefined (dm : DataModel) (p : Participant) :
    (constValueC dm [.ident p.addrLow] = none ∧
      constValueC dm [.ident p.addrHigh] = none) ∧
    (constTypeC dm [.ident p.addrLow] = some .int ∧ CType.bits dm .int = 32) ∧
    (∀ v : Int, chipIdField (bits64 (CType.wrap dm .int v)) = 0x0000 ∨
      chipIdField (bits64 (CType.wrap dm .int v)) = 0xFFFF) ∧
    (p = .memory ∨ (p.documentedId ≠ 0x0000 ∧ p.documentedId ≠ 0xFFFF)) := by
  refine ⟨?_, ?_, chipIdField_of_int dm, ?_⟩
  · cases dm <;> cases p <;> decide
  · cases dm <;> cases p <;> decide
  · cases p <;> decide

/-- The typed value of a token sequence is that of the expression it
parses to. -/
theorem constValueC_of_parse (dm : DataModel) (ts : List Tok) (e : Expr)
    (h : parse (expand ts) = some e) : constValueC dm ts = e.evalC dm := by
  unfold constValueC
  rw [h]

/-- Parentheses do not change the typed value. -/
theorem evalC_paren (dm : DataModel) (e : Expr) :
    (Expr.paren e).evalC dm = e.evalC dm := rfl

/-- The typed value of a constant whose type is known. -/
theorem evalC_lit (dm : DataModel) (b : Base) (n : Nat) (t : CType)
    (h : litType dm b n = some t) : (Expr.lit b n).evalC dm = some (t, (n : Int)) := by
  simp only [Expr.evalC, h]

/-- An operator whose left operand has no value has no value. -/
theorem evalC_bin_left_none (dm : DataModel) (op : BinOp) (l r : Expr)
    (h : l.evalC dm = none) : (Expr.bin op l r).evalC dm = none := by
  simp only [Expr.evalC, h]

/-- An operator whose operands have values is applied to them. -/
theorem evalC_bin_some (dm : DataModel) (op : BinOp) (l r : Expr) (a b : CType × Int)
    (hl : l.evalC dm = some a) (hr : r.evalC dm = some b) :
    (Expr.bin op l r).evalC dm = op.applyC dm a b := by
  simp only [Expr.evalC, hl, hr]

/-- A shift of an `int` by 40 is undefined, whatever the value shifted. -/
theorem applyC_shl_int_40 (dm : DataModel) (a : Int) :
    BinOp.applyC dm .shl (.int, a) (.int, ((40 : Nat) : Int)) = none := by
  unfold BinOp.applyC
  exact if_pos (Or.inr (by cases dm <;> decide))

/-- A hexadecimal constant that `int` can represent has type `int`. -/
theorem litType_hex_int (dm : DataModel) (n : Nat)
    (h : CType.represents dm .int (n : Int) = true) : litType dm .hex n = some .int := by
  have h2 : List.find? (fun t => CType.represents dm t (n : Int))
      [CType.int, .uint, .long, .ulong, .llong, .ullong] = some CType.int :=
    List.find?_cons_of_pos _ h
  exact h2

/-- C6: what the code does. For a chip ID below `2 ^ 16` and an offset
below `2 ^ 40`, the value the specification names, `(c << 40) | o`, is below
`2 ^ 56`, with bits 56 to 63 zero. In the header's composition
`((0x00 << 56) + (c << 40) + o)` the constant `c` has type `int`, both
shifts are undefined, and the composition has no value under the typing of
C. -/
theorem compose_undefined (dm : DataModel) (c o : Nat) (hc : c < 2 ^ 16)
    (ho : o < 2 ^ 40) :
    (specCompose c o < 2 ^ 56 ∧ reservedField (specCompose c o) = 0) ∧
    litType dm .hex c = some .int ∧
    Expr.evalC dm (.bin .shl (.lit .hex 0x00) (.lit .dec 56)) = none ∧
    Expr.evalC dm (.bin .shl (.lit .hex c) (.lit .dec 40)) = none ∧
    constValueC dm (addrPattern [.lit .hex c] [.lit .hex o]) = none := by
  have hparse : parse (expand (addrPattern [.lit .hex c] [.lit .hex o]))
      = some (.paren (.bin .add
          (.bin .add (.paren (.bin .shl (.lit .hex 0x00) (.lit .dec 56)))
            (.paren (.bin .shl (.lit .hex c) (.lit .dec 40))))
          (.lit .hex o))) := rfl
  have hor : specCompose c o = c * 2 ^ 40 + o := by
    unfold specCompose
    rw [Nat.shiftLeft_eq, Nat.mul_comm c, Nat.mul_add_lt_is_or ho]
  have hlt : c * 2 ^ 40 + o < 2 ^ 56 := by
    norm_num at hc ho ⊢
    omega
  have hrep : CType.represents dm .int (c : Int) = true := by
    simp only [CType.represents, CType.isSigned, CType.bits, if_true, Bool.and_eq_true,
      decide_eq_true_eq]
    norm_num at hc ⊢
    omega
  have hlit : litType dm .hex c = some .int := litType_hex_int dm c hrep
  have h56 : Expr.evalC dm (.bin .shl (.lit .hex 0x00) (.lit .dec 56)) = none := by
    cases dm <;> decide
  have hdec : Expr.evalC dm (.lit .dec 40) = some (.int, ((40 : Nat) : Int)) :=
    evalC_lit dm .dec 40 .int (by cases dm <;> decide)
  have h40 : Expr.evalC dm (.bin .shl (.lit .hex c) (.lit .dec 40)) = none :=
    (evalC_bin_some dm .shl _ _ _ _ (evalC_lit dm .hex c .int hlit) hdec).trans
      (applyC_shl_int_40 dm c)
  have hval := constValueC_of_parse dm _ _ hparse
  refine ⟨⟨hor ▸ hlt, ?_⟩, hlit, h56, h40, ?_⟩
  · rw [hor]
    unfold reservedField
    rw [Nat.shiftRight_eq_div_pow, Nat.div_eq_of_lt hlt, Nat.zero_mod]
  · rw [hval]
    exact (evalC_paren dm _).trans
      (evalC_bin_left_none dm .add _ _ (evalC_bin_left_none dm .add _ _
        ((evalC_paren dm _).trans h56)))

/-- Witness for C6: the monitor chip ID `0xCCCC` with the UART offset
`0xC0000000`, under ILP32; the specification's value there is
`0x00CCCC00C0000000`. -/
theorem compose_undefined_witness :
    (0xCCCC < 2 ^ 16 ∧ 0xC0000000 < 2 ^ 40 ∧
      specCompose 0xCCCC 0xC0000000 = 0x00CCCC00C0000000) ∧
    (specCompose 0xCCCC 0xC0000000 < 2 ^ 56 ∧
      reservedField (specCompose 0xCCCC 0xC0000000) = 0) ∧
    litType .ilp32 .hex 0xCCCC = some .int ∧
    Expr.evalC .ilp32 (.bin .shl (.lit .hex 0x00) (.lit .dec 56)) = none ∧
    Expr.evalC .ilp32 (.bin .shl (.lit .hex 0xCCCC) (.lit .dec 40)) = none ∧
    constValueC .ilp32 (addrPattern [.lit .hex 0xCCCC] [.lit .hex 0xC0000000]) = none :=
  ⟨by decide, compose_undefined .ilp32 0xCCCC 0xC0000000 (by decide) (by decide)⟩

/-- C7: what the code does. The two port offsets are the `unsigned int`
values `0xC0000000` and `0xD0000000`. The compositions
`(MONITOR_CHIPID << 40) + UART_ADDR` and `(MONITOR_CHIPID << 40) + EXIT_ADDR`
have no value under the typing of C; they are expressions of type
`unsigned int`, and no `unsigned int` value is the documented address
`0x00CCCC00C0000000` or `0x00CCCC00D0000000`. The bounds of the monitor's
range, `MONITOR_ADDR_LOW` and `MONITOR_ADDR_HIGH`, have no value either. -/
theorem monitor_ports_undefined (dm : DataModel) :
    (constValueC dm [.ident .UART_ADDR] = some (.uint, 0xC0000000) ∧
      constValueC dm [.ident .EXIT_ADDR] = some (.uint, 0xD0000000)) ∧
    (constValueC dm [.lparen, .ident .MONITOR_CHIPID, .shl, .lit .dec 40, .rparen, .plus,
        .ident .UART_ADDR] = none ∧
      constValueC dm [.lparen, .ident .MONITOR_CHIPID, .shl, .lit .dec 40, .rparen, .plus,
        .ident .EXIT_ADDR] = none) ∧
    (constTypeC dm [.lparen, .ident .MONITOR_CHIPID, .shl, .lit .dec 40, .rparen, .plus,
        .ident .UART_ADDR] = some .uint ∧
      constTypeC dm [.lparen, .ident .MONITOR_CHIPID, .shl, .lit .dec 40, .rparen, .plus,
        .ident .EXIT_ADDR] = some .uint) ∧
    (∀ v : Int, bits64 (CType.wrap dm .uint v) ≠ 0x00CCCC00C0000000 ∧
      bits64 (CType.wrap dm .uint v) ≠ 0x00CCCC00D0000000) ∧
    (constValueC dm [.ident .MONITOR_ADDR_LOW] = none ∧
      constValueC dm [.ident .MONITOR_ADDR_HIGH] = none) := by
  refine ⟨?_, ?_, ?_, ?_, ?_⟩
  · cases dm <;> decide
  · cases dm <;> decide
  · cases dm <;> decide
  · intro v
    have h := bits64_of_uint dm v
    norm_num at h ⊢
    omega
  · cases dm <;> decide

/-- C10: what the code does. Under the typing of C no participant's range
has bounds: `X_ADDR_LOW` and `X_ADDR_HIGH` have no value. `X_ADDR_LOW` is an
expression of type `int`, and `int` can represent the documented lower
bound, the chip ID shifted by 40, for the memory only. -/
theorem address_ranges_undefined (dm : DataModel) (p : Participant) :
    (constValueC dm [.ident p.addrLow] = none ∧
      constValueC dm [.ident p.addrHigh] = none) ∧
    constTypeC dm [.ident p.addrLow] = some .int ∧
    (CType.represents dm .int ((p.documentedId * 2 ^ 40 : Nat) : Int) = true ↔
      p = .memory) := by
  cases dm <;> cases p <;> decide

/-! ## Theorems: the words stored by `puts` -/

/-- A byte of at most 127 converts to the same `int` whether plain `char`
is signed or not: the byte itself. -/
theorem charToInt_of_le (signedChar : Bool) (b : Byte) (h : b.val ≤ 127) :
    charToInt signedChar b = (b.val : Int) := by
  unfold charToInt
  split <;> rename_i hs
  · simp only [Bool.and_eq_true, decide_eq_true_eq] at hs
    omega
  · rfl

/-- The word of a store whose value is a byte is that byte. -/
theorem word_of_byte (a : Nat) (b : Byte) :
    Store.word ⟨a, (b.val : Int)⟩ = b.val ∧ Store.word ⟨a, (b.val : Int)⟩ >>> 8 = 0 := by
  have hb := b.isLt
  have hw : Store.word ⟨a, (b.val : Int)⟩ = b.val := by
    unfold Store.word
    norm_num
    omega
  refine ⟨hw, ?_⟩
  rw [hw, Nat.shiftRight_eq_div_pow]
  exact Nat.div_eq_of_lt (by norm_num)

/-- What `puts` stores on a null-terminated string of bytes up to 127. -/
theorem puts_of_ascii (signedChar : Bool) (str : List Byte) (h0 : (0 : Byte) ∈ str)
    (hascii : ∀ b ∈ str.takeWhile (fun b => b ≠ 0), 1 ≤ b.val ∧ b.val ≤ 127) :
    puts signedChar str
      = some ((str.takeWhile (fun b => b ≠ 0)).map
          (fun b => ⟨0xC0000000, (b.val : Int)⟩) ++ [⟨0xC0000000, 10⟩]) := by
  rw [puts_of_mem_zero signedChar str h0]
  congr 2
  apply List.map_congr_left
  intro b hb
  rw [charToInt_of_le signedChar b (hascii b hb).2]

/-- C12: on a null-terminated string whose bytes before the zero byte are
all in 1..127, `puts` stores, for plain `char` signed or unsigned alike, one
`int` per byte whose value is the byte, as a 32-bit word the byte with bits
8 to 31 zero, and last the value 10; every stored value is positive. -/
theorem puts_words_ascii (signedChar : Bool) (str : List Byte) (h0 : (0 : Byte) ∈ str)
    (hascii : ∀ b ∈ str.takeWhile (fun b => b ≠ 0), 1 ≤ b.val ∧ b.val ≤ 127) :
    ∃ trace, puts signedChar str = some trace ∧
      (puts true str = some trace ∧ puts false str = some trace) ∧
      trace.map Store.value
        = (str.takeWhile (fun b => b ≠ 0)).map (fun b => (b.val : Int)) ++ [10] ∧
      trace.map Store.word
        = (str.takeWhile (fun b => b ≠ 0)).map (fun b => b.val) ++ [10] ∧
      (∀ w ∈ trace, w.word >>> 8 = 0) ∧
      trace.getLast? = some ⟨0xC0000000, 10⟩ ∧
      (∀ w ∈ trace, 0 < w.value) := by
  refine ⟨_, puts_of_ascii signedChar str h0 hascii,
    ⟨puts_of_ascii true str h0 hascii, puts_of_ascii false str h0 hascii⟩, ?_, ?_, ?_, ?_, ?_⟩
  · simp only [List.map_append, List.map_map, List.map_cons, List.map_nil]
    rfl
  · simp only [List.map_append, List.map_map, List.map_cons, List.map_nil]
    congr 1
    apply List.map_congr_left
    intro b _
    exact (word_of_byte 0xC0000000 b).1
  · intro w hw
    simp only [List.mem_append, List.mem_map, List.mem_singleton] at hw
    rcases hw with ⟨b, _, rfl⟩ | rfl
    · exact (word_of_byte 0xC0000000 b).2
    · decide
  · simp
  · intro w hw
    simp only [List.mem_append, List.mem_map, List.mem_singleton] at hw
    rcases hw with ⟨b, hb, rfl⟩ | rfl
    · have := (hascii b hb).1
      show (0 : Int) < (b.val : Int)
      omega
    · decide

/-- Witness for C12: the bytes `'o'`, `'k'`, `0x7F`, zero, `0xC8`: three
stores of bytes up to 127 and the newline; the byte after the zero, above
127, is not read. -/
theorem puts_words_ascii_witness :
    ((0 : Byte) ∈ ([111, 107, 127, 0, 200] : List Byte) ∧
      ∀ b ∈ ([111, 107, 127, 0, 200] : List Byte).takeWhile (fun b => b ≠ 0),
        1 ≤ b.val ∧ b.val ≤ 127) ∧
    ∃ trace, puts true [111, 107, 127, 0, 200] = some trace ∧
      (puts true [111, 107, 127, 0, 200] = some trace ∧
        puts false [111, 107, 127, 0, 200] = some trace) ∧
      trace.map Store.value
        = (([111, 107, 127, 0, 200] : List Byte).takeWhile (fun b => b ≠ 0)).map
            (fun b => (b.val : Int)) ++ [10] ∧
      trace.map Store.word
        = (([111, 107, 127, 0, 200] : List Byte).takeWhile (fun b => b ≠ 0)).map
            (fun b => b.val) ++ [10] ∧
      (∀ w ∈ trace, w.word >>> 8 = 0) ∧
      trace.getLast? = some ⟨0xC0000000, 10⟩ ∧
      (∀ w ∈ trace, 0 < w.value) :=
  ⟨⟨by decide, by simp; decide⟩,
    puts_words_ascii true [111, 107, 127, 0, 200] (by decide) (by simp; decide)⟩

end EbrickDemo
